import Mathlib

/-!
Verification of the timeline segment-manipulation engine of the
local-celeb transcript editor.

The TypeScript source is embedded shallowly:

* JavaScript numbers are modelled as rationals (`ℚ`).  Every numeric
  computation the verified claims touch stays well inside the range where
  IEEE-754 doubles behave like exact rationals; concrete counterexample
  inputs were chosen to be exactly representable in binary floating point.
* JavaScript strings are modelled as `List Char`.
* Fallible parses (`Number.parseInt` / `Number.parseFloat` returning `NaN`)
  are modelled with `Option`; the non-finite values `Infinity` / `-Infinity`
  that `parseFloat` can produce are modelled with an explicit `JsFloat` sum.
* The zustand store is modelled as a record `ProjectState` carrying exactly
  the fields the verified operations read or write, and each store action
  is a pure function `ProjectState → ProjectState`.
-/

/-- JavaScript strings, modelled as lists of characters. -/
abbrev JsString := List Char

/-! ## JavaScript numeric primitives -/

/-- `Math.round` for the values at hand: round half up (toward `+∞`),
which is exactly `⌊q + 1/2⌋`, matching ECMA `Math.round` on all finite
inputs. -/
def jsRound (q : ℚ) : ℤ := ⌊q + 1/2⌋

/-- Truncation toward zero, as used by the JavaScript `%` operator. -/
def jsTrunc (q : ℚ) : ℤ := if 0 ≤ q then ⌊q⌋ else ⌈q⌉

/-- The JavaScript remainder operator `a % b`: `a - b * trunc(a / b)`
(sign follows the dividend). -/
def jsRem (a b : ℚ) : ℚ := a - b * (jsTrunc (a / b) : ℚ)

/-- `Math.abs`, written so that the kernel can evaluate it. -/
def jsAbs (q : ℚ) : ℚ := if q < 0 then -q else q

/-! ## Character and string primitives -/

/-- ECMA `StrWhiteSpaceChar` (the characters `parseInt` / `parseFloat` /
`Number` skip): space, tab, LF, CR, VT, FF, NBSP, BOM. -/
def isJsWhitespace (c : Char) : Bool :=
  c.toNat = 32 || c.toNat = 9 || c.toNat = 10 || c.toNat = 13 ||
    c.toNat = 11 || c.toNat = 12 || c.toNat = 160 || c.toNat = 65279

/-- ECMA `DecimalDigit`. -/
def isDigitChar (c : Char) : Bool := 48 ≤ c.toNat && c.toNat ≤ 57

/-- Numeric value of a decimal digit character. -/
def digitVal (c : Char) : ℕ := c.toNat - 48

/-- Value of a decimal digit string (most significant digit first). -/
def digitsVal (l : List Char) : ℕ :=
  l.foldl (fun a c => 10 * a + digitVal c) 0

/-- Decimal digits of a natural number, most significant first, prefixed
to `acc`. -/
def natReprAux (n : ℕ) (acc : List Char) : List Char :=
  if n < 10 then Nat.digitChar n :: acc
  else natReprAux (n / 10) (Nat.digitChar (n % 10) :: acc)
termination_by n
decreasing_by exact Nat.div_lt_self (by omega) (by omega)

/-- Decimal representation of a natural number
(JavaScript `Number.prototype.toString` on a nonnegative integer). -/
def natRepr (n : ℕ) : List Char := natReprAux n []

/-- JavaScript `toString` of an integer-valued number. -/
def jsIntRepr (i : ℤ) : List Char :=
  if i < 0 then '-' :: natRepr i.natAbs else natRepr i.natAbs

/-- JavaScript `String.prototype.padStart(n, c)`. -/
def padStart (l : List Char) (n : ℕ) (c : Char) : List Char :=
  List.replicate (n - l.length) c ++ l

/-- JavaScript `String.prototype.split` with a single-character
separator: `"".split(c)` is `[""]`, and every separator occurrence opens
a new chunk. -/
def jsSplit (sep : Char) : List Char → List (List Char)
  | [] => [[]]
  | c :: rest =>
    if c = sep then [] :: jsSplit sep rest
    else
      match jsSplit sep rest with
      | [] => [[c]]
      | h :: t => (c :: h) :: t

/-- Leading-sign splitter shared by the numeric parsers: returns whether
a minus sign was consumed, and the remaining characters. -/
def splitSign (l : JsString) : Bool × JsString :=
  match l with
  | c :: rest =>
    if c = '-' then (true, rest)
    else if c = '+' then (false, rest)
    else (false, l)
  | [] => (false, [])

/-! ## Numeric parsing (`Number.parseInt` / `Number.parseFloat`)

`NaN` is modelled as `none`; `parseFloat` can also produce the infinities,
modelled by `JsFloat`.  Magnitudes are kept exact (mathematical integers
and rationals); the loss of precision IEEE doubles would impose beyond
2⁵³ is outside every verified claim. -/

/-- A non-`NaN` JavaScript number: finite rational or an infinity. -/
inductive JsFloat where
  | fin (q : ℚ)
  | inf
  | negInf
deriving DecidableEq, Repr

/-- `Number.parseInt(s, 10)`: skip whitespace, optional sign, then a
decimal-digit prefix; `NaN` (= `none`) when no digit follows. -/
def parseInt_js (l : JsString) : Option ℤ :=
  let l₁ := l.dropWhile isJsWhitespace
  let s := splitSign l₁
  let ds := s.2.takeWhile isDigitChar
  if ds = [] then none
  else some ((if s.1 then -1 else 1) * (digitsVal ds : ℤ))

/-- `Number.parseFloat(s)`: skip whitespace, optional sign, then the
longest `StrDecimalLiteral` prefix — `Infinity`, or decimal digits with
optional fraction and exponent; `NaN` (= `none`) when no such prefix
exists. -/
def parseFloat_js (l : JsString) : Option JsFloat :=
  let l₁ := l.dropWhile isJsWhitespace
  let s := splitSign l₁
  if s.2.take 8 = "Infinity".toList then
    some (if s.1 then JsFloat.negInf else JsFloat.inf)
  else
    let intDs := s.2.takeWhile isDigitChar
    let rest₁ := s.2.dropWhile isDigitChar
    let fracSplit : JsString × JsString :=
      match rest₁ with
      | '.' :: r => (r.takeWhile isDigitChar, r.dropWhile isDigitChar)
      | r => ([], r)
    if intDs = [] ∧ fracSplit.1 = [] then none
    else
      let mantissa : ℚ :=
        (digitsVal intDs : ℚ) + (digitsVal fracSplit.1 : ℚ) / (10 ^ fracSplit.1.length : ℚ)
      let expVal : ℤ :=
        match fracSplit.2 with
        | e :: r =>
          if e = 'e' ∨ e = 'E' then
            let es := splitSign r
            let eds := es.2.takeWhile isDigitChar
            if eds = [] then 0
            else (if es.1 then -1 else 1) * (digitsVal eds : ℤ)
          else 0
        | [] => 0
      some (JsFloat.fin ((if s.1 then -1 else 1) * mantissa * (10 : ℚ) ^ expVal))

/-! ## Time codec (`src/lib/utils.ts`) -/

/-- `x.toFixed(0)`: round to the nearest integer, ties toward `+∞`, and
print it. -/
def toFixed0 (q : ℚ) : List Char := jsIntRepr (jsRound q)

/-- `x.toFixed(1)`: round to the nearest tenth, ties toward `+∞`, and
print it with exactly one decimal digit. -/
def toFixed1 (q : ℚ) : List Char :=
  let z := jsRound (q * 10)
  (if z < 0 then ['-'] else []) ++
    natRepr (z.natAbs / 10) ++ '.' :: [Nat.digitChar (z.natAbs % 10)]

/-- `formatTime(seconds)` from `src/lib/utils.ts`: minutes, colon, then
the remainder seconds rounded to one decimal (printed without the decimal
when it is an integer), both sides zero-padded. -/
def formatTime (seconds : ℚ) : List Char :=
  let mins : ℤ := ⌊seconds / 60⌋
  let secs : ℚ := jsRem seconds 60
  let secsRounded : ℚ := (jsRound (secs * 10) : ℚ) / 10
  let secsStr : List Char :=
    if jsRem secsRounded 1 = 0 then padStart (toFixed0 secsRounded) 2 '0'
    else padStart (toFixed1 secsRounded) 4 '0'
  padStart (jsIntRepr mins) 2 '0' ++ ':' :: secsStr

/-- `parseTime(timeStr)` from `src/lib/utils.ts`: split on `:`; unless
there are exactly two parts and both parse, return `0`; otherwise return
`minutes * 60 + seconds`. -/
def parseTime_js (timeStr : JsString) : JsFloat :=
  let parts := jsSplit ':' timeStr
  match parts with
  | [p0, p1] =>
    match parseInt_js p0, parseFloat_js p1 with
    | some mins, some secs =>
      match secs with
      | JsFloat.fin q => JsFloat.fin ((mins : ℚ) * 60 + q)
      | JsFloat.inf => JsFloat.inf
      | JsFloat.negInf => JsFloat.negInf
    | _, _ => JsFloat.fin 0
  | _ => JsFloat.fin 0

/-! ## Snap resolver (`src/lib/timeline-utils.ts`) -/

/-- Result record of `snapToEdge` / `snapTime`
(`interface SnapToEdgeResult`). -/
structure SnapToEdgeResult where
  time : ℚ
  snapped : Bool
deriving DecidableEq, Repr

/-- Snap configuration record (`interface SnapConfig`). -/
structure SnapConfig where
  gridEnabled : Bool
  gridInterval : ℚ
  edgeEnabled : Bool
  edgeThreshold : ℚ
deriving DecidableEq, Repr

/-- `DEFAULT_SNAP_CONFIG`: grid every 0.5 s, edge threshold 0.2 s. -/
def DEFAULT_SNAP_CONFIG : SnapConfig :=
  { gridEnabled := true
    gridInterval := 1/2
    edgeEnabled := true
    edgeThreshold := 1/5 }

/-- `snapToGrid(time, interval, enabled)`: if disabled or the interval is
nonpositive, return the input; otherwise round `time / interval` and scale
back. -/
def snapToGrid (time interval : ℚ) (enabled : Bool := true) : ℚ :=
  if enabled = false ∨ interval ≤ 0 then time
  else (jsRound (time / interval) : ℚ) * interval

/-- The accumulator loop of `snapToEdge`: starting from
`(closestTarget, minDistance) = (time, threshold)`, each target whose
distance to `time` is strictly below the running minimum becomes the new
closest target. -/
def snapToEdgeLoop (time : ℚ) (targets : List ℚ) (acc : ℚ × ℚ) : ℚ × ℚ :=
  targets.foldl
    (fun acc target =>
      let distance := jsAbs (time - target)
      if distance < acc.2 then (target, distance) else acc)
    acc

/-- `snapToEdge(time, targets, threshold, enabled)` from
`src/lib/timeline-utils.ts`. -/
def snapToEdge (time : ℚ) (targets : List ℚ) (threshold : ℚ)
    (enabled : Bool := true) : SnapToEdgeResult :=
  if enabled = false ∨ targets = [] then { time := time, snapped := false }
  else
    let closestTarget := (snapToEdgeLoop time targets (time, threshold)).1
    { time := closestTarget, snapped := closestTarget ≠ time }

/-- `snapTime(time, targets, config)`: edge snap first; on edge-snap
success return it unchanged, otherwise grid snap with `snapped := false`. -/
def snapTime (time : ℚ) (targets : List ℚ)
    (config : SnapConfig := DEFAULT_SNAP_CONFIG) : SnapToEdgeResult :=
  let edgeResult := snapToEdge time targets config.edgeThreshold config.edgeEnabled
  if edgeResult.snapped then edgeResult
  else
    { time := snapToGrid time config.gridInterval config.gridEnabled
      snapped := false }

/-! ## Right-edge drag tick (Timeline `handleMouseMove`, right branch)

From the timeline component: on a pointer-move tick while dragging a
segment's right edge, the candidate end is clamped from below to
`initialStartTime + minDuration`, snapped with `snapTime` against the
other segments' edges, and the formatted result is written to the store
as the segment's new `endTime` — unconditionally, with no post-snap
duration check. -/

/-- `const minDuration = 0.5` from the drag handler. -/
def minDuration : ℚ := 1/2

/-- The clamped raw candidate end:
`Math.max(initialStartTime + minDuration, initialEndTime + deltaTime)`. -/
def rightEdgeRawEnd (initialStartTime initialEndTime deltaTime : ℚ) : ℚ :=
  max (initialStartTime + minDuration) (initialEndTime + deltaTime)

/-- The snapped end value the tick computes (`performSnap(rawEnd, ...)`). -/
def rightEdgeNewEnd (initialStartTime initialEndTime deltaTime : ℚ)
    (targets : List ℚ) (config : SnapConfig) : ℚ :=
  (snapTime (rightEdgeRawEnd initialStartTime initialEndTime deltaTime)
    targets config).time

/-- The `endTime` string the tick stores
(`onUpdateSegment(id, { endTime: formatTime(newEnd) })`). -/
def rightEdgeStoredEnd (initialStartTime initialEndTime deltaTime : ℚ)
    (targets : List ℚ) (config : SnapConfig) : JsString :=
  formatTime (rightEdgeNewEnd initialStartTime initialEndTime deltaTime
    targets config)

/-! ## Project store (`src/stores/project-store.ts`)

The zustand store is modelled as a record carrying the fields the
verified mutations read or write (`segments`, `speakers`, the two history
stacks and the selection); every action is a pure function on it.
`generateId()` (wall clock + `Math.random`) is modelled by passing the
generated id as an explicit argument. -/

/-- A transcript segment (`SegmentSchema` in `src/types`). -/
structure Segment where
  id : JsString
  speakerId : JsString
  startTime : JsString
  endTime : JsString
  text : JsString
deriving DecidableEq, Repr

/-- A speaker (`SpeakerSchema` in `src/types`). -/
structure Speaker where
  id : JsString
  name : JsString
  color : JsString
deriving DecidableEq, Repr

/-- A history snapshot (`interface HistoryEntry`). -/
structure HistoryEntry where
  segments : List Segment
  speakers : List Speaker
deriving DecidableEq, Repr

/-- A `Partial<Segment>` update object: absent fields are `none`. -/
structure SegmentPatch where
  id : Option JsString
  speakerId : Option JsString
  startTime : Option JsString
  endTime : Option JsString
  text : Option JsString
deriving DecidableEq, Repr

/-- The object spread `{ ...s, ...updates }`. -/
def applySegmentPatch (s : Segment) (p : SegmentPatch) : Segment :=
  { id := p.id.getD s.id
    speakerId := p.speakerId.getD s.speakerId
    startTime := p.startTime.getD s.startTime
    endTime := p.endTime.getD s.endTime
    text := p.text.getD s.text }

/-- A `Partial<Speaker>` update object. -/
structure SpeakerPatch where
  id : Option JsString
  name : Option JsString
  color : Option JsString
deriving DecidableEq, Repr

/-- The object spread `{ ...s, ...updates }` for speakers. -/
def applySpeakerPatch (s : Speaker) (p : SpeakerPatch) : Speaker :=
  { id := p.id.getD s.id
    name := p.name.getD s.name
    color := p.color.getD s.color }

/-- The store state slice the verified actions touch. -/
structure ProjectState where
  segments : List Segment
  speakers : List Speaker
  past : List HistoryEntry
  future : List HistoryEntry
  selectedSegmentId : Option JsString
deriving DecidableEq, Repr

/-- The history push every mutating action performs:
`[...state.past, { segments: state.segments, speakers: state.speakers }]`. -/
def pushHistory (st : ProjectState) : List HistoryEntry :=
  st.past ++ [{ segments := st.segments, speakers := st.speakers }]

/-- Model of `Number()` as used by the `addSegment` sort comparator,
restricted to (signed, possibly fractional, possibly exponent-carrying)
decimal literals; the whitespace-only string is `0`.  The hexadecimal /
octal / binary and `Infinity` forms `Number()` also accepts cannot occur
in time strings and are mapped to `none` (`NaN`) here; states containing
such strings are excluded by the well-formedness hypotheses of the
theorems that use this key. -/
def jsNumber (l : JsString) : Option ℚ :=
  let t := ((l.dropWhile isJsWhitespace).reverse.dropWhile isJsWhitespace).reverse
  if t = [] then some 0
  else
    let s := splitSign t
    let intDs := s.2.takeWhile isDigitChar
    let r1 := s.2.dropWhile isDigitChar
    let fracSplit : JsString × JsString :=
      match r1 with
      | '.' :: r => (r.takeWhile isDigitChar, r.dropWhile isDigitChar)
      | r => ([], r)
    let expPart : Bool × ℤ × JsString :=
      match fracSplit.2 with
      | e :: r =>
        if e = 'e' ∨ e = 'E' then
          let es := splitSign r
          let eds := es.2.takeWhile isDigitChar
          if eds = [] then (false, 0, r)
          else (true, (if es.1 then -1 else 1) * (digitsVal eds : ℤ),
            es.2.dropWhile isDigitChar)
        else (true, 0, fracSplit.2)
      | [] => (true, 0, [])
    if intDs = [] ∧ fracSplit.1 = [] then none
    else if expPart.1 = false then none
    else if expPart.2.2 ≠ [] then none
    else
      some ((if s.1 then -1 else 1) *
        ((digitsVal intDs : ℚ) + (digitsVal fracSplit.1 : ℚ) / (10 ^ fracSplit.1.length : ℚ)) *
        (10 : ℚ) ^ expPart.2.1)

/-- The start-time sort key the `addSegment` comparator computes:
`startTime.split(":").reduce((acc, t, i) => acc + Number(t) * (i === 0 ? 60 : 1), 0)`,
`none` when any part is `NaN`. -/
def segStartKey (startTime : JsString) : Option ℚ :=
  match jsSplit ':' startTime with
  | [] => some 0
  | p :: rest =>
    (jsNumber p).bind fun v0 =>
      rest.foldlM (fun acc t => (jsNumber t).map fun x => acc + x) (60 * v0)

/-- The sort key with the `NaN` default collapsed to `0`.  The JavaScript
comparator is consistent (and its sort result well defined) only when
every key parses; under that hypothesis the default is never consulted. -/
def segKeyD (s : Segment) : ℚ := (segStartKey s.startTime).getD 0

/-- The stable ascending sort by parsed start time that `addSegment`
performs (`Array.prototype.sort` is stable). -/
def sortSegments (l : List Segment) : List Segment :=
  l.mergeSort fun a b => decide (segKeyD a ≤ segKeyD b)

/-- `setProjectData(segments, speakers)`. -/
def setProjectData (st : ProjectState) (segments : List Segment)
    (speakers : List Speaker) : ProjectState :=
  { st with
    past := pushHistory st
    future := []
    segments := segments
    speakers := speakers }

/-- `addSegment(currentTime, speakerId?)`.  The speaker defaulting chain
`speakerId || state.speakers[0]?.id || "speaker_1"` is falsy-based:
`undefined` and the empty string both fall through, mirrored here by the
`≠ []` tests. -/
def addSegment (st : ProjectState) (currentTime : ℚ)
    (speakerId : Option JsString) (newId : JsString) : ProjectState :=
  let argId := speakerId.getD []
  let headId := (st.speakers.head?.map Speaker.id).getD []
  let targetSpeakerId :=
    if argId ≠ [] then argId
    else if headId ≠ [] then headId
    else "speaker_1".toList
  let newSegment : Segment :=
    { id := newId
      speakerId := targetSpeakerId
      startTime := formatTime currentTime
      endTime := formatTime (currentTime + 3)
      text := [] }
  { st with
    past := pushHistory st
    future := []
    segments := sortSegments (st.segments ++ [newSegment])
    selectedSegmentId := some newId }

/-- `updateSegment(id, updates)`. -/
def updateSegment (st : ProjectState) (id : JsString) (updates : SegmentPatch) :
    ProjectState :=
  { st with
    past := pushHistory st
    future := []
    segments := st.segments.map fun s =>
      if s.id = id then applySegmentPatch s updates else s }

/-- `deleteSegment(id)`. -/
def deleteSegment (st : ProjectState) (id : JsString) : ProjectState :=
  { st with
    past := pushHistory st
    future := []
    segments := st.segments.filter fun s => s.id ≠ id
    selectedSegmentId :=
      if st.selectedSegmentId = some id then none else st.selectedSegmentId }

/-- `updateSpeaker(id, updates)`. -/
def updateSpeaker (st : ProjectState) (id : JsString) (updates : SpeakerPatch) :
    ProjectState :=
  { st with
    past := pushHistory st
    future := []
    speakers := st.speakers.map fun s =>
      if s.id = id then applySpeakerPatch s updates else s }

/-- `deleteSpeaker(id)`: removes the speaker and cascades to its
segments. -/
def deleteSpeaker (st : ProjectState) (id : JsString) : ProjectState :=
  { st with
    past := pushHistory st
    future := []
    speakers := st.speakers.filter fun s => s.id ≠ id
    segments := st.segments.filter fun s => s.speakerId ≠ id }

/-- `mergeSpeakers(fromId, toId)`: rewrite segments, drop the source
speaker. -/
def mergeSpeakers (st : ProjectState) (fromId toId : JsString) : ProjectState :=
  { st with
    past := pushHistory st
    future := []
    segments := st.segments.map fun s =>
      if s.speakerId = fromId then { s with speakerId := toId } else s
    speakers := st.speakers.filter fun s => s.id ≠ fromId }

/-- `reorderSpeakers(fromIndex, toIndex)`: list-splice semantics — remove
at `fromIndex` (clamped), reinsert at `toIndex` (clamped).  When
`fromIndex` is out of range the JavaScript code splices `undefined` into
the roster, which a `List Speaker` cannot represent; the theorems about
this action therefore require `fromIndex < speakers.length`. -/
def reorderSpeakers (st : ProjectState) (fromIndex toIndex : ℕ) : ProjectState :=
  let l := st.speakers
  let afterRemove := l.take fromIndex ++ l.drop (fromIndex + 1)
  let newSpeakers :=
    match l.get? fromIndex with
    | some moved => afterRemove.take toIndex ++ moved :: afterRemove.drop toIndex
    | none => afterRemove
  { st with
    past := pushHistory st
    future := []
    speakers := newSpeakers }

/-- `undo()`: no-op on an empty `past`; otherwise pop the last snapshot,
push the current data onto the head of `future`. -/
def undo (st : ProjectState) : ProjectState :=
  match st.past.getLast? with
  | none => st
  | some previous =>
    { st with
      past := st.past.dropLast
      future := { segments := st.segments, speakers := st.speakers } :: st.future
      segments := previous.segments
      speakers := previous.speakers }

/-- `redo()`: no-op on an empty `future`; otherwise shift its head back
in, pushing the current data onto `past`. -/
def redo (st : ProjectState) : ProjectState :=
  match st.future with
  | [] => st
  | next :: rest =>
    { st with
      past := pushHistory st
      future := rest
      segments := next.segments
      speakers := next.speakers }

/-- `canUndo()`. -/
def canUndo (st : ProjectState) : Bool := decide (st.past.length > 0)

/-- `canRedo()`. -/
def canRedo (st : ProjectState) : Bool := decide (st.future.length > 0)

/-- The eight mutating store actions, as one sum type. -/
inductive StoreOp where
  | addSegment (currentTime : ℚ) (speakerId : Option JsString) (newId : JsString)
  | updateSegment (id : JsString) (updates : SegmentPatch)
  | deleteSegment (id : JsString)
  | updateSpeaker (id : JsString) (updates : SpeakerPatch)
  | deleteSpeaker (id : JsString)
  | mergeSpeakers (fromId toId : JsString)
  | reorderSpeakers (fromIndex toIndex : ℕ)
  | setProjectData (segments : List Segment) (speakers : List Speaker)

/-- Interpretation of a mutating action on the store. -/
def applyOp (op : StoreOp) (st : ProjectState) : ProjectState :=
  match op with
  | StoreOp.addSegment t spk newId => addSegment st t spk newId
  | StoreOp.updateSegment id p => updateSegment st id p
  | StoreOp.deleteSegment id => deleteSegment st id
  | StoreOp.updateSpeaker id p => updateSpeaker st id p
  | StoreOp.deleteSpeaker id => deleteSpeaker st id
  | StoreOp.mergeSpeakers a b => mergeSpeakers st a b
  | StoreOp.reorderSpeakers i j => reorderSpeakers st i j
  | StoreOp.setProjectData segs spks => setProjectData st segs spks

/-- Domain restriction under which the embedding is faithful: an
out-of-range `reorderSpeakers` would splice `undefined` into the roster
in JavaScript (see `reorderSpeakers`); every other action is total. -/
def opOk (op : StoreOp) (st : ProjectState) : Prop :=
  match op with
  | StoreOp.reorderSpeakers fromIndex _ => fromIndex < st.speakers.length
  | _ => True

/-- The empty store state, used by concrete witnesses. -/
def emptyProjectState : ProjectState :=
  { segments := []
    speakers := []
    past := []
    future := []
    selectedSegmentId := none }

/-- A state with a pending redo entry, used by concrete counterexamples. -/
def redoableState : ProjectState :=
  { segments := []
    speakers := []
    past := []
    future := [{ segments := [], speakers := [] }]
    selectedSegmentId := none }

/-- A one-segment, one-speaker state, used by concrete counterexamples. -/
def mergeExampleState : ProjectState :=
  { segments := [{ id := "s1".toList
                   speakerId := "a".toList
                   startTime := "00:00".toList
                   endTime := "00:01".toList
                   text := [] }]
    speakers := [{ id := "a".toList, name := "A".toList, color := "#3b82f6".toList }]
    past := []
    future := []
    selectedSegmentId := none }

/-- A no-segment, one-speaker state, used by concrete counterexamples. -/
def addExampleState : ProjectState :=
  { segments := []
    speakers := [{ id := "alice".toList
                   name := "Alice".toList
                   color := "#3b82f6".toList }]
    past := []
    future := []
    selectedSegmentId := none }

/-! ### Lemmas about the edge-snap loop -/

theorem jsAbs_eq_abs (q : ℚ) : jsAbs q = |q| := by
  rw [jsAbs]
  split
  · exact (abs_of_neg (by assumption)).symm
  · exact (abs_of_nonneg (not_lt.mp (by assumption))).symm

theorem find?_congr_mem {α : Type _} {p q : α → Bool} :
    ∀ {l : List α}, (∀ x ∈ l, p x = q x) → l.find? p = l.find? q
  | [], _ => rfl
  | x :: xs, h => by
    have hx : p x = q x := h x (List.mem_cons_self x xs)
    by_cases hpx : p x = true
    · rw [List.find?_cons_of_pos _ hpx, List.find?_cons_of_pos _ (hx ▸ hpx)]
    · have hqx : ¬q x = true := fun hq => hpx (hx ▸ hq)
      rw [List.find?_cons_of_neg _ hpx, List.find?_cons_of_neg _ hqx]
      exact find?_congr_mem fun y hy => h y (List.mem_cons_of_mem x hy)


/-- The predicate singling out the first target at minimal distance
strictly under the running bound `m`. -/
def bestPred (time m : ℚ) (l : List ℚ) (t : ℚ) : Bool :=
  decide (jsAbs (time - t) < m ∧ ∀ u ∈ l, jsAbs (time - u) < m → jsAbs (time - t) ≤ jsAbs (time - u))

/-- Specification-side description of the edge-snap winner, written from
the spec text: the first target in list order whose distance to the input
is strictly below the threshold and minimal among all targets strictly
below the threshold. -/
def firstClosestUnderThreshold (time : ℚ) (targets : List ℚ) (threshold : ℚ) :
    Option ℚ :=
  targets.find? (bestPred time threshold targets)

theorem snapToEdgeLoop_cons (time t : ℚ) (rest : List ℚ) (c m : ℚ) :
    snapToEdgeLoop time (t :: rest) (c, m) =
      if jsAbs (time - t) < m then snapToEdgeLoop time rest (t, jsAbs (time - t))
      else snapToEdgeLoop time rest (c, m) := by
  simp only [snapToEdgeLoop, List.foldl_cons]
  by_cases h : jsAbs (time - t) < m <;> simp [h]

/-- Whenever some list element lies strictly within the bound, some list
element attains the minimal distance strictly within the bound. -/
theorem exists_bestPred (time m : ℚ) :
    ∀ l : List ℚ, (∃ x ∈ l, jsAbs (time - x) < m) →
      ∃ y ∈ l, bestPred time m l y = true
  | [], h => by simp at h
  | a :: l, h => by
    by_cases hl : ∃ x ∈ l, jsAbs (time - x) < m
    · obtain ⟨y, hymem, hy⟩ := exists_bestPred time m l hl
      simp only [bestPred, decide_eq_true_eq] at hy
      by_cases ha : jsAbs (time - a) < m ∧ jsAbs (time - a) ≤ jsAbs (time - y)
      · refine ⟨a, List.mem_cons_self a l, ?_⟩
        simp only [bestPred, decide_eq_true_eq]
        refine ⟨ha.1, ?_⟩
        intro u hu hum
        rcases List.mem_cons.mp hu with hu | hu
        · exact hu ▸ le_refl _
        · exact ha.2.trans (hy.2 u hu hum)
      · refine ⟨y, List.mem_cons_of_mem a hymem, ?_⟩
        simp only [bestPred, decide_eq_true_eq]
        refine ⟨hy.1, ?_⟩
        intro u hu hum
        rcases List.mem_cons.mp hu with hu | hu
        · subst hu
          rcases not_and_or.mp ha with ha | ha
          · exact absurd hum ha
          · exact (not_le.mp ha).le
        · exact hy.2 u hu hum
    · obtain ⟨x, hxmem, hx⟩ := h
      have hxa : x = a := by
        rcases List.mem_cons.mp hxmem with hxa | hxl
        · exact hxa
        · exact absurd ⟨x, hxl, hx⟩ hl
      refine ⟨a, List.mem_cons_self a l, ?_⟩
      simp only [bestPred, decide_eq_true_eq]
      refine ⟨hxa ▸ hx, ?_⟩
      intro u hu hum
      rcases List.mem_cons.mp hu with hu | hu
      · exact hu ▸ le_refl _
      · exact absurd ⟨u, hu, hum⟩ hl

/-- Characterisation of the `snapToEdge` fold: starting from the
accumulator `(c, m)`, the fold returns the first target of the list whose
distance is strictly below `m` and minimal among all such targets, paired
with that distance; if no target is strictly within `m`, the accumulator
is returned unchanged. -/
theorem snapToEdgeLoop_spec (time : ℚ) :
    ∀ (l : List ℚ) (c m : ℚ),
      snapToEdgeLoop time l (c, m) =
        ((l.find? (bestPred time m l)).map (fun t => (t, jsAbs (time - t)))).getD (c, m)
  | [], _, _ => rfl
  | t :: rest, c, m => by
    by_cases ht : jsAbs (time - t) < m
    · -- the head strictly improves the running minimum
      rw [snapToEdgeLoop_cons, if_pos ht,
        snapToEdgeLoop_spec time rest t (jsAbs (time - t))]
      by_cases hmin : ∀ u ∈ rest, jsAbs (time - u) < m → jsAbs (time - t) ≤ jsAbs (time - u)
      · -- the head is already minimal: it wins and nothing in the tail is
        -- strictly closer
        have hhead : bestPred time m (t :: rest) t = true := by
          simp only [bestPred, decide_eq_true_eq]
          refine ⟨ht, ?_⟩
          intro v hv hvm
          rcases List.mem_cons.mp hv with hv | hv
          · exact hv ▸ le_refl _
          · exact hmin v hv hvm
        have hnone : rest.find? (bestPred time (jsAbs (time - t)) rest) = none := by
          rw [List.find?_eq_none]
          intro u hu
          simp only [bestPred, decide_eq_true_eq, not_and]
          intro hut
          exact absurd hut (not_lt.mpr (hmin u hu (hut.trans ht)))
        rw [hnone, List.find?_cons_of_pos _ hhead]
        rfl
      · -- some tail element is strictly closer than the head
        push_neg at hmin
        obtain ⟨u₀, hu₀mem, hu₀m, hu₀t⟩ := hmin
        have hheadfail : ¬bestPred time m (t :: rest) t = true := by
          simp only [bestPred, decide_eq_true_eq, not_and]
          intro _ hall
          exact absurd (hall u₀ (List.mem_cons_of_mem t hu₀mem) hu₀m)
            (not_le.mpr hu₀t)
        rw [List.find?_cons_of_neg _ hheadfail]
        have hcongr : rest.find? (bestPred time (jsAbs (time - t)) rest) =
            rest.find? (bestPred time m (t :: rest)) := by
          apply find?_congr_mem
          intro v hv
          simp only [bestPred, decide_eq_decide]
          constructor
          · rintro ⟨hvt, hall⟩
            refine ⟨hvt.trans ht, ?_⟩
            intro w hw hwm
            rcases List.mem_cons.mp hw with hw | hw
            · exact hw ▸ hvt.le
            · by_cases hwt : jsAbs (time - w) < jsAbs (time - t)
              · exact hall w hw hwt
              · exact hvt.le.trans (not_lt.mp hwt)
          · rintro ⟨hvm, hall⟩
            have hvu₀ : jsAbs (time - v) ≤ jsAbs (time - u₀) :=
              hall u₀ (List.mem_cons_of_mem t hu₀mem) hu₀m
            refine ⟨lt_of_le_of_lt hvu₀ hu₀t, ?_⟩
            intro w hw hwt
            exact hall w (List.mem_cons_of_mem t hw) (hwt.trans ht)
        rw [hcongr]
        obtain ⟨y, hymem, hy⟩ := exists_bestPred time m (t :: rest)
          ⟨u₀, List.mem_cons_of_mem t hu₀mem, hu₀m⟩
        have hyrest : y ∈ rest := by
          rcases List.mem_cons.mp hymem with hyt | hyr
          · exact absurd (hyt ▸ hy) hheadfail
          · exact hyr
        cases hfind : rest.find? (bestPred time m (t :: rest)) with
        | none => exact absurd hy (List.find?_eq_none.mp hfind y hyrest)
        | some z => simp [hfind]
    · -- the head does not improve the running minimum
      rw [snapToEdgeLoop_cons, if_neg ht, snapToEdgeLoop_spec time rest c m]
      have hheadfail : ¬bestPred time m (t :: rest) t = true := by
        simp only [bestPred, decide_eq_true_eq, not_and]
        intro hmt
        exact absurd hmt ht
      rw [List.find?_cons_of_neg _ hheadfail]
      have hcongr : rest.find? (bestPred time m rest) =
          rest.find? (bestPred time m (t :: rest)) := by
        apply find?_congr_mem
        intro v hv
        simp only [bestPred, decide_eq_decide]
        constructor
        · rintro ⟨hvm, hall⟩
          refine ⟨hvm, ?_⟩
          intro w hw hwm
          rcases List.mem_cons.mp hw with hw | hw
          · exact absurd (hw ▸ hwm) ht
          · exact hall w hw hwm
        · rintro ⟨hvm, hall⟩
          exact ⟨hvm, fun w hw hwm => hall w (List.mem_cons_of_mem t hw) hwm⟩
      rw [hcongr]

/-- `snapToEdge`, when enabled on a non-empty target list, returns the
first target at minimal distance strictly under the threshold (or the
input when none is), and flags `snapped` exactly when the result differs
from the input. -/
theorem snapToEdge_characterisation (time : ℚ) (targets : List ℚ)
    (threshold : ℚ) (h : targets ≠ []) :
    snapToEdge time targets threshold true =
      { time := (firstClosestUnderThreshold time targets threshold).getD time
        snapped :=
          (firstClosestUnderThreshold time targets threshold).getD time ≠ time } := by
  rw [snapToEdge, if_neg (by simp [h])]
  have hloop := snapToEdgeLoop_spec time targets time threshold
  rw [firstClosestUnderThreshold]
  cases hfind : targets.find? (bestPred time threshold targets) with
  | none => rw [hfind] at hloop; simp [hloop, hfind]
  | some t => rw [hfind] at hloop; simp [hloop, hfind]

/-- When the input time is itself a target, the zero-distance target wins
(or nothing is under the threshold), so the input comes back with
`snapped = false`. -/
theorem snapToEdge_self_mem (time : ℚ) (targets : List ℚ) (threshold : ℚ)
    (h : time ∈ targets) :
    snapToEdge time targets threshold true = { time := time, snapped := false } := by
  rw [snapToEdge_characterisation time targets threshold (List.ne_nil_of_mem h)]
  have hres : (firstClosestUnderThreshold time targets threshold).getD time = time := by
    rw [firstClosestUnderThreshold]
    cases hfind : targets.find? (bestPred time threshold targets) with
    | none => rfl
    | some t =>
      have ht := List.find?_some hfind
      simp only [bestPred, decide_eq_true_eq, jsAbs_eq_abs] at ht
      have htime : |time - time| < threshold := by
        simpa using lt_of_le_of_lt (abs_nonneg (time - t)) ht.1
      have hle : |time - t| ≤ |time - time| := ht.2 time h htime
      have habs : |time - t| = 0 :=
        le_antisymm (by simpa using hle) (abs_nonneg _)
      have : time - t = 0 := abs_eq_zero.mp habs
      simp [sub_eq_zero.mp this]
  simp [hres]

/-- On a time already equal to some target, `snapTime` falls through to
the grid (the edge pass reports `snapped = false`), whatever the config. -/
theorem snapTime_self_mem (time : ℚ) (targets : List ℚ) (config : SnapConfig)
    (h : time ∈ targets) :
    snapTime time targets config =
      { time := snapToGrid time config.gridInterval config.gridEnabled
        snapped := false } := by
  rw [snapTime]
  cases hEdge : config.edgeEnabled with
  | false =>
    have : snapToEdge time targets config.edgeThreshold false =
        { time := time, snapped := false } := by
      rw [snapToEdge, if_pos (Or.inl rfl)]
    simp [this]
  | true =>
    have := snapToEdge_self_mem time targets config.edgeThreshold h
    simp [this]

/-- C3: `snapTime` tries edge snap first and returns its result unchanged
on success; otherwise it grid-snaps and reports `snapped = false`.  On
targets `[2,4,6]` with the default config, `1.9` edge-snaps to `2` and
`3.2` grid-snaps to `3`. -/
theorem claim_C3_snapTime_precedence (time : ℚ) (targets : List ℚ)
    (config : SnapConfig) :
    (snapTime time targets config =
      if (snapToEdge time targets config.edgeThreshold config.edgeEnabled).snapped
      then snapToEdge time targets config.edgeThreshold config.edgeEnabled
      else
        { time := snapToGrid time config.gridInterval config.gridEnabled
          snapped := false }) ∧
    snapTime (19/10) [2, 4, 6] DEFAULT_SNAP_CONFIG = { time := 2, snapped := true } ∧
    snapTime (16/5) [2, 4, 6] DEFAULT_SNAP_CONFIG = { time := 3, snapped := false } := by
  refine ⟨rfl, ?_, ?_⟩ <;>
    norm_num [snapTime, snapToEdge, snapToEdgeLoop, snapToGrid, jsAbs, jsRound,
      DEFAULT_SNAP_CONFIG, List.cons_ne_nil]

/-- C4: an enabled `snapToEdge` on a non-empty target list returns the
first target in list order at minimal distance strictly below the
threshold (the input when no target is strictly within the threshold),
and `snapped` holds exactly when the returned time differs from the
input; with targets `[1,3,5,10]` and threshold `0.2`, `1.1` snaps to `1`
and `1.3` does not snap. -/
theorem claim_C4_snapToEdge_first_argmin (time : ℚ) (targets : List ℚ)
    (threshold : ℚ) (h : targets ≠ []) :
    ((snapToEdge time targets threshold true).time =
      (firstClosestUnderThreshold time targets threshold).getD time) ∧
    ((snapToEdge time targets threshold true).snapped =
      decide ((snapToEdge time targets threshold true).time ≠ time)) ∧
    snapToEdge (11/10) [1, 3, 5, 10] (1/5) true = { time := 1, snapped := true } ∧
    snapToEdge (13/10) [1, 3, 5, 10] (1/5) true =
      { time := 13/10, snapped := false } := by
  rw [snapToEdge_characterisation time targets threshold h]
  refine ⟨rfl, rfl, ?_, ?_⟩ <;>
    norm_num [snapToEdge, snapToEdgeLoop, jsAbs, List.cons_ne_nil]

theorem claim_C4_witness :
    ((snapToEdge (11/10) [1, 3, 5, 10] (1/5) true).time =
      (firstClosestUnderThreshold (11/10) [1, 3, 5, 10] (1/5)).getD (11/10)) ∧
    ((snapToEdge (11/10) [1, 3, 5, 10] (1/5) true).snapped =
      decide ((snapToEdge (11/10) [1, 3, 5, 10] (1/5) true).time ≠ 11/10)) ∧
    snapToEdge (11/10) [1, 3, 5, 10] (1/5) true = { time := 1, snapped := true } ∧
    snapToEdge (13/10) [1, 3, 5, 10] (1/5) true =
      { time := 13/10, snapped := false } :=
  claim_C4_snapToEdge_first_argmin (11/10) [1, 3, 5, 10] (1/5) (by simp)

/-- C10: if the input time is itself among the targets, the edge pass
returns the input with `snapped = false`, so `snapTime` grid-snaps a time
that already lies on another segment's edge and can move it away; with
`2.3` among the targets and the default config, `snapTime` returns `2.5`. -/
theorem claim_C10_self_edge_falls_to_grid (time : ℚ) (targets : List ℚ)
    (threshold : ℚ) (config : SnapConfig) (h : time ∈ targets) :
    snapToEdge time targets threshold true = { time := time, snapped := false } ∧
    snapTime time targets config =
      { time := snapToGrid time config.gridInterval config.gridEnabled
        snapped := false } ∧
    snapTime (23/10) [23/10] DEFAULT_SNAP_CONFIG =
      { time := 5/2, snapped := false } :=
  ⟨snapToEdge_self_mem time targets threshold h,
    snapTime_self_mem time targets config h, by
      norm_num [snapTime, snapToEdge, snapToEdgeLoop, snapToGrid, jsAbs, jsRound,
        DEFAULT_SNAP_CONFIG, List.cons_ne_nil]⟩

theorem claim_C10_witness :
    snapToEdge (23/10) [23/10] (1/5) true = { time := 23/10, snapped := false } ∧
    snapTime (23/10) [23/10] DEFAULT_SNAP_CONFIG =
      { time := snapToGrid (23/10) DEFAULT_SNAP_CONFIG.gridInterval
          DEFAULT_SNAP_CONFIG.gridEnabled
        snapped := false } ∧
    snapTime (23/10) [23/10] DEFAULT_SNAP_CONFIG =
      { time := 5/2, snapped := false } :=
  claim_C10_self_edge_falls_to_grid (23/10) [23/10] (1/5) DEFAULT_SNAP_CONFIG
    (by simp)

/-! ### Time codec lemmas -/

theorem natReprAux_eq_append (n : ℕ) : ∀ acc : List Char,
    natReprAux n acc = natReprAux n [] ++ acc := by
  induction n using Nat.strong_induction_on with
  | _ n ih =>
    intro acc
    by_cases h : n < 10
    · rw [natReprAux, if_pos h, natReprAux, if_pos h]
      rfl
    · have hd : n / 10 < n := Nat.div_lt_self (by omega) (by omega)
      have e1 : natReprAux n acc =
          natReprAux (n / 10) (Nat.digitChar (n % 10) :: acc) := by
        rw [natReprAux, if_neg h]
      have e2 : natReprAux n [] =
          natReprAux (n / 10) [Nat.digitChar (n % 10)] := by
        rw [natReprAux, if_neg h]
      calc natReprAux n acc
          = natReprAux (n / 10) (Nat.digitChar (n % 10) :: acc) := e1
        _ = natReprAux (n / 10) [] ++ (Nat.digitChar (n % 10) :: acc) :=
            ih (n / 10) hd _
        _ = (natReprAux (n / 10) [] ++ [Nat.digitChar (n % 10)]) ++ acc := by
            simp
        _ = natReprAux (n / 10) [Nat.digitChar (n % 10)] ++ acc := by
            rw [← ih (n / 10) hd [Nat.digitChar (n % 10)]]
        _ = natReprAux n [] ++ acc := by rw [← e2]

theorem natRepr_of_lt (n : ℕ) (h : n < 10) : natRepr n = [Nat.digitChar n] := by
  rw [natRepr, natReprAux, if_pos h]

theorem natRepr_of_ge (n : ℕ) (h : ¬n < 10) :
    natRepr n = natRepr (n / 10) ++ [Nat.digitChar (n % 10)] := by
  rw [natRepr, natReprAux, if_neg h, natReprAux_eq_append]
  rfl

theorem digitVal_digitChar (k : ℕ) (h : k < 10) :
    digitVal (Nat.digitChar k) = k := by
  interval_cases k <;> rfl

theorem isDigitChar_digitChar (k : ℕ) (h : k < 10) :
    isDigitChar (Nat.digitChar k) = true := by
  interval_cases k <;> rfl

theorem digitsVal_natRepr (n : ℕ) : digitsVal (natRepr n) = n := by
  induction n using Nat.strong_induction_on with
  | _ n ih =>
    by_cases h : n < 10
    · rw [natRepr_of_lt n h]
      simp [digitsVal, digitVal_digitChar n h]
    · have hd : n / 10 < n := Nat.div_lt_self (by omega) (by omega)
      rw [natRepr_of_ge n h, digitsVal, List.foldl_append]
      have hbase : (natRepr (n / 10)).foldl (fun a c => 10 * a + digitVal c) 0 =
          n / 10 := ih (n / 10) hd
      rw [hbase]
      simp only [List.foldl_cons, List.foldl_nil,
        digitVal_digitChar (n % 10) (Nat.mod_lt n (by omega))]
      omega

theorem natRepr_all_digits (n : ℕ) : ∀ c ∈ natRepr n, isDigitChar c = true := by
  induction n using Nat.strong_induction_on with
  | _ n ih =>
    intro c hc
    by_cases h : n < 10
    · rw [natRepr_of_lt n h, List.mem_singleton] at hc
      exact hc ▸ isDigitChar_digitChar n h
    · have hd : n / 10 < n := Nat.div_lt_self (by omega) (by omega)
      rw [natRepr_of_ge n h, List.mem_append, List.mem_singleton] at hc
      rcases hc with hc | hc
      · exact ih (n / 10) hd c hc
      · exact hc ▸ isDigitChar_digitChar (n % 10) (Nat.mod_lt n (by omega))

theorem natRepr_ne_nil (n : ℕ) : natRepr n ≠ [] := by
  by_cases h : n < 10
  · rw [natRepr_of_lt n h]; simp
  · rw [natRepr_of_ge n h]; simp

theorem not_ws_of_digit (c : Char) (h : isDigitChar c = true) :
    isJsWhitespace c = false := by
  simp only [isDigitChar, Bool.and_eq_true, decide_eq_true_eq] at h
  simp only [isJsWhitespace, Bool.or_eq_false_iff, decide_eq_false_iff_not]
  omega

theorem takeWhile_all {p : Char → Bool} :
    ∀ l : List Char, (∀ c ∈ l, p c = true) → l.takeWhile p = l
  | [], _ => rfl
  | c :: rest, h => by
    rw [List.takeWhile_cons, if_pos (h c (List.mem_cons_self c rest)),
      takeWhile_all rest fun d hd => h d (List.mem_cons_of_mem c hd)]

theorem dropWhile_all {p : Char → Bool} :
    ∀ l : List Char, (∀ c ∈ l, p c = true) → l.dropWhile p = []
  | [], _ => rfl
  | c :: rest, h => by
    rw [List.dropWhile_cons, if_pos (h c (List.mem_cons_self c rest))]
    exact dropWhile_all rest fun d hd => h d (List.mem_cons_of_mem c hd)

theorem dropWhile_ws_of_digits (l : List Char)
    (h : ∀ c ∈ l, isDigitChar c = true) :
    l.dropWhile isJsWhitespace = l := by
  cases l with
  | nil => rfl
  | cons c rest =>
    rw [List.dropWhile_cons,
      if_neg (by simp [not_ws_of_digit c (h c (List.mem_cons_self c rest))])]

theorem splitSign_of_digits (l : List Char)
    (h : ∀ c ∈ l, isDigitChar c = true) : splitSign l = (false, l) := by
  cases l with
  | nil => rfl
  | cons c rest =>
    have hc := h c (List.mem_cons_self c rest)
    simp only [isDigitChar, Bool.and_eq_true, decide_eq_true_eq] at hc
    have hminus : ¬c = '-' := fun he => by subst he; revert hc; decide
    have hplus : ¬c = '+' := fun he => by subst he; revert hc; decide
    rw [splitSign, if_neg hminus, if_neg hplus]

theorem digitsVal_zeros_append (m : ℕ) (l : List Char) :
    digitsVal (List.replicate m '0' ++ l) = digitsVal l := by
  induction m with
  | zero => rfl
  | succ k ih =>
    rw [List.replicate_succ, List.cons_append, digitsVal, List.foldl_cons]
    have : 10 * 0 + digitVal '0' = 0 := rfl
    rw [this]
    exact ih

theorem parseInt_zeros_digits (m n : ℕ) :
    parseInt_js (List.replicate m '0' ++ natRepr n) = some (n : ℤ) := by
  have hall : ∀ c ∈ List.replicate m '0' ++ natRepr n, isDigitChar c = true := by
    intro c hc
    rcases List.mem_append.mp hc with hc | hc
    · rw [List.eq_of_mem_replicate hc]; rfl
    · exact natRepr_all_digits n c hc
  have hne : List.replicate m '0' ++ natRepr n ≠ [] := by
    simp [natRepr_ne_nil n]
  simp only [parseInt_js, dropWhile_ws_of_digits _ hall, splitSign_of_digits _ hall,
    takeWhile_all _ hall]
  rw [if_neg hne]
  rw [digitsVal_zeros_append, digitsVal_natRepr]
  simp

theorem take_ne_infinity (l : List Char)
    (hall : ∀ c ∈ l, isDigitChar c = true) (hne : l ≠ []) :
    ¬l.take 8 = "Infinity".toList := by
  cases l with
  | nil => exact absurd rfl hne
  | cons c rest =>
    intro heq
    rw [show "Infinity".toList = 'I' :: "nfinity".toList from rfl] at heq
    rw [show (8 : ℕ) = 7 + 1 from rfl, List.take_succ_cons] at heq
    injection heq with hcI _
    have := hall c (List.mem_cons_self c rest)
    rw [hcI] at this
    exact absurd this (by decide)

theorem parseFloat_zeros_digits (m n : ℕ) :
    parseFloat_js (List.replicate m '0' ++ natRepr n) = some (JsFloat.fin (n : ℚ)) := by
  have hall : ∀ c ∈ List.replicate m '0' ++ natRepr n, isDigitChar c = true := by
    intro c hc
    rcases List.mem_append.mp hc with hc | hc
    · rw [List.eq_of_mem_replicate hc]; rfl
    · exact natRepr_all_digits n c hc
  have hne : List.replicate m '0' ++ natRepr n ≠ [] := by
    simp [natRepr_ne_nil n]
  simp only [parseFloat_js, dropWhile_ws_of_digits _ hall, splitSign_of_digits _ hall,
    takeWhile_all _ hall, dropWhile_all _ hall]
  rw [if_neg (take_ne_infinity _ hall hne)]
  rw [if_neg (by simp [hne])]
  rw [digitsVal_zeros_append, digitsVal_natRepr]
  norm_num [digitsVal]

theorem jsSplit_not_mem (sep : Char) :
    ∀ l : List Char, sep ∉ l → jsSplit sep l = [l]
  | [], _ => rfl
  | c :: rest, h => by
    have hcs : ¬c = sep := fun he => h (he ▸ List.mem_cons_self c rest)
    rw [jsSplit, if_neg hcs,
      jsSplit_not_mem sep rest fun hm => h (List.mem_cons_of_mem c hm)]

theorem jsSplit_append (sep : Char) :
    ∀ l₁ l₂ : List Char, sep ∉ l₁ →
      jsSplit sep (l₁ ++ sep :: l₂) = l₁ :: jsSplit sep l₂
  | [], l₂, _ => by rw [List.nil_append, jsSplit, if_pos rfl]
  | c :: rest, l₂, h => by
    have hcs : ¬c = sep := fun he => h (he ▸ List.mem_cons_self c rest)
    rw [List.cons_append, jsSplit, if_neg hcs,
      jsSplit_append sep rest l₂ fun hm => h (List.mem_cons_of_mem c hm)]

theorem floor_nat_div_sixty (n : ℕ) : ⌊(n : ℚ) / 60⌋ = ((n / 60 : ℕ) : ℤ) := by
  rw [Int.floor_eq_iff]
  constructor
  · rw [le_div_iff₀ (by norm_num : (0:ℚ) < 60)]
    exact_mod_cast Nat.div_mul_le_self n 60
  · rw [div_lt_iff₀ (by norm_num : (0:ℚ) < 60)]
    have : n < (n / 60 + 1) * 60 := by omega
    push_cast
    exact_mod_cast this

theorem jsTrunc_nonneg (q : ℚ) (h : 0 ≤ q) : jsTrunc q = ⌊q⌋ := by
  rw [jsTrunc, if_pos h]

theorem jsRem_nat_sixty (n : ℕ) : jsRem (n : ℚ) 60 = ((n % 60 : ℕ) : ℚ) := by
  rw [jsRem, jsTrunc_nonneg _ (by positivity), floor_nat_div_sixty]
  have hq : 60 * ((n / 60 : ℕ) : ℚ) + ((n % 60 : ℕ) : ℚ) = (n : ℚ) := by
    exact_mod_cast Nat.div_add_mod n 60
  have hcast : (((n / 60 : ℕ) : ℤ) : ℚ) = ((n / 60 : ℕ) : ℚ) := by norm_cast
  rw [hcast]
  linarith

theorem jsRound_intCast (z : ℤ) : jsRound (z : ℚ) = z := by
  rw [jsRound, Int.floor_int_add]
  norm_num

theorem jsRem_intCast_one (z : ℤ) : jsRem (z : ℚ) 1 = 0 := by
  rw [jsRem, jsTrunc]
  rcases le_or_lt 0 (z : ℚ) with h | h
  · rw [if_pos (by simpa using h)]
    simp
  · rw [if_neg (by simpa using not_le.mpr h)]
    simp

theorem jsIntRepr_natCast (k : ℕ) : jsIntRepr ((k : ℕ) : ℤ) = natRepr k := by
  rw [jsIntRepr, if_neg (by exact_mod_cast Int.not_lt.mpr (Int.ofNat_nonneg k))]
  simp

theorem toFixed0_natCast (k : ℕ) : toFixed0 ((k : ℕ) : ℚ) = natRepr k := by
  rw [toFixed0, show ((k : ℕ) : ℚ) = (((k : ℕ) : ℤ) : ℚ) by push_cast; ring,
    jsRound_intCast, jsIntRepr_natCast]

theorem formatTime_natCast (n : ℕ) :
    formatTime (n : ℚ) =
      padStart (natRepr (n / 60)) 2 '0' ++ ':' :: padStart (natRepr (n % 60)) 2 '0' := by
  simp only [formatTime]
  rw [jsRem_nat_sixty]
  have h3 : ((n % 60 : ℕ) : ℚ) * 10 = (((10 * (n % 60) : ℕ) : ℤ) : ℚ) := by
    rw [Int.cast_natCast]
    push_cast
    ring
  rw [h3, jsRound_intCast]
  have h10 : (((10 * (n % 60) : ℕ) : ℤ) : ℚ) = 10 * ((n % 60 : ℕ) : ℚ) := by
    norm_cast
  have h5 : (((10 * (n % 60) : ℕ) : ℤ) : ℚ) / 10 = ((n % 60 : ℕ) : ℚ) := by
    rw [h10, mul_div_cancel_left₀ _ (by norm_num : (10 : ℚ) ≠ 0)]
  rw [h5]
  rw [show ((n % 60 : ℕ) : ℚ) = (((n % 60 : ℕ) : ℤ) : ℚ) by norm_cast]
  rw [jsRem_intCast_one, if_pos rfl]
  rw [show (((n % 60 : ℕ) : ℤ) : ℚ) = ((n % 60 : ℕ) : ℚ) by norm_cast]
  rw [toFixed0_natCast, floor_nat_div_sixty, jsIntRepr_natCast]

theorem colon_not_mem_of_digits (l : List Char)
    (h : ∀ c ∈ l, isDigitChar c = true) : ':' ∉ l := by
  intro hmem
  exact absurd (h ':' hmem) (by decide)

theorem padStart_zero_digits (l : List Char) (n : ℕ)
    (h : ∀ c ∈ l, isDigitChar c = true) :
    ∀ c ∈ padStart l n '0', isDigitChar c = true := by
  intro c hc
  rw [padStart, List.mem_append] at hc
  rcases hc with hc | hc
  · rw [List.eq_of_mem_replicate hc]; rfl
  · exact h c hc

theorem parseTime_eval (s p0 p1 : JsString) (hsp : jsSplit ':' s = [p0, p1])
    (m : ℤ) (q : ℚ) (h0 : parseInt_js p0 = some m)
    (h1 : parseFloat_js p1 = some (JsFloat.fin q)) :
    parseTime_js s = JsFloat.fin ((m : ℚ) * 60 + q) := by
  rw [parseTime_js, hsp]
  simp only [h0, h1]

/-- C9: for every natural number of seconds, formatting and re-parsing is
the identity: `parseTime(formatTime(n)) = n`. -/
theorem claim_C9_parse_format_roundtrip (n : ℕ) :
    parseTime_js (formatTime (n : ℚ)) = JsFloat.fin (n : ℚ) := by
  rw [formatTime_natCast]
  have hd0 : ∀ c ∈ padStart (natRepr (n / 60)) 2 '0', isDigitChar c = true :=
    padStart_zero_digits _ 2 (natRepr_all_digits (n / 60))
  have hd1 : ∀ c ∈ padStart (natRepr (n % 60)) 2 '0', isDigitChar c = true :=
    padStart_zero_digits _ 2 (natRepr_all_digits (n % 60))
  have hsplit : jsSplit ':'
      (padStart (natRepr (n / 60)) 2 '0' ++ ':' :: padStart (natRepr (n % 60)) 2 '0') =
      [padStart (natRepr (n / 60)) 2 '0', padStart (natRepr (n % 60)) 2 '0'] := by
    rw [jsSplit_append ':' _ _ (colon_not_mem_of_digits _ hd0),
      jsSplit_not_mem ':' _ (colon_not_mem_of_digits _ hd1)]
  have heval := parseTime_eval _ _ _ hsplit ((n / 60 : ℕ) : ℤ) ((n % 60 : ℕ) : ℚ)
    (parseInt_zeros_digits (2 - (natRepr (n / 60)).length) (n / 60))
    (parseFloat_zeros_digits (2 - (natRepr (n % 60)).length) (n % 60))
  rw [heval]
  have harith : (((n / 60 : ℕ) : ℤ) : ℚ) * 60 + ((n % 60 : ℕ) : ℚ) = (n : ℚ) := by
    have h : (n / 60) * 60 + n % 60 = n := by omega
    rw [Int.cast_natCast]
    calc ((n / 60 : ℕ) : ℚ) * 60 + ((n % 60 : ℕ) : ℚ)
        = (((n / 60) * 60 + n % 60 : ℕ) : ℚ) := by push_cast; ring
      _ = (n : ℚ) := by rw [h]
  rw [harith]

/-- C7: `parseTime` is total, and on any input that does not split on `:`
into exactly two parts, or whose parts fail to parse (minutes as an
integer, seconds as a float), it returns `0`. -/
theorem claim_C7_parseTime_malformed_zero (s : JsString)
    (h : (jsSplit ':' s).length ≠ 2 ∨
      ∃ p₀ p₁, jsSplit ':' s = [p₀, p₁] ∧
        (parseInt_js p₀ = none ∨ parseFloat_js p₁ = none)) :
    parseTime_js s = JsFloat.fin 0 := by
  rw [parseTime_js]
  rcases hsp : jsSplit ':' s with _ | ⟨p0, _ | ⟨p1, _ | ⟨p2, rest⟩⟩⟩
  · rfl
  · rfl
  · -- exactly two parts: the failure must come from a parser
    rcases h with h | ⟨q0, q1, heq, hor⟩
    · rw [hsp] at h
      exact absurd rfl h
    · rw [hsp] at heq
      injection heq with h0 htail
      injection htail with h1 _
      subst h0
      subst h1
      rcases hI : parseInt_js p0 with _ | mI
      · simp [hI]
      · rcases hF : parseFloat_js p1 with _ | mF
        · simp [hI, hF]
        · rw [hI, hF] at hor
          rcases hor with hor | hor <;> exact absurd hor (by simp)
  · rfl

theorem claim_C7_witness :
    parseTime_js "abc".toList = JsFloat.fin 0 :=
  claim_C7_parseTime_malformed_zero "abc".toList (Or.inl (by decide))

/-! ### Drag-tick counterexample machinery -/

theorem takeWhile_append_stop {p : Char → Bool} :
    ∀ A : List Char, (∀ c ∈ A, p c = true) →
      ∀ (c : Char) (B : List Char), p c = false →
        ((A ++ c :: B).takeWhile p = A ∧ (A ++ c :: B).dropWhile p = c :: B)
  | [], _, c, B, hc => by
    constructor
    · rw [List.nil_append, List.takeWhile_cons, if_neg (by simp [hc])]
    · rw [List.nil_append, List.dropWhile_cons, if_neg (by simp [hc])]
  | a :: A, h, c, B, hc => by
    have ha := h a (List.mem_cons_self a A)
    have hrest := takeWhile_append_stop A
      (fun d hd => h d (List.mem_cons_of_mem a hd)) c B hc
    constructor
    · rw [List.cons_append, List.takeWhile_cons, if_pos ha, hrest.1]
    · rw [List.cons_append, List.dropWhile_cons, if_pos ha, hrest.2]

theorem splitSign_head_digit (c : Char) (rest : List Char)
    (h : isDigitChar c = true) : splitSign (c :: rest) = (false, c :: rest) := by
  simp only [isDigitChar, Bool.and_eq_true, decide_eq_true_eq] at h
  have hminus : ¬c = '-' := fun he => by subst he; revert h; decide
  have hplus : ¬c = '+' := fun he => by subst he; revert h; decide
  rw [splitSign, if_neg hminus, if_neg hplus]

theorem dropWhile_ws_head_digit (c : Char) (rest : List Char)
    (h : isDigitChar c = true) :
    (c :: rest).dropWhile isJsWhitespace = c :: rest := by
  rw [List.dropWhile_cons, if_neg (by simp [not_ws_of_digit c h])]

theorem take_ne_infinity_head (c : Char) (rest : List Char)
    (h : isDigitChar c = true) : ¬(c :: rest).take 8 = "Infinity".toList := by
  intro heq
  rw [show (8 : ℕ) = 7 + 1 from rfl, List.take_succ_cons] at heq
  injection heq with hcI _
  rw [hcI] at h
  exact absurd h (by decide)

/-- `parseFloat` on a plain `digits.digits` literal. -/
theorem parseFloat_int_frac (intDs fracDs : List Char)
    (hint : ∀ c ∈ intDs, isDigitChar c = true)
    (hfrac : ∀ c ∈ fracDs, isDigitChar c = true)
    (hne : intDs ≠ []) :
    parseFloat_js (intDs ++ '.' :: fracDs) =
      some (JsFloat.fin
        ((digitsVal intDs : ℚ) + (digitsVal fracDs : ℚ) / (10 ^ fracDs.length : ℚ))) := by
  obtain ⟨c, A, rfl⟩ : ∃ c A, intDs = c :: A := by
    cases intDs with
    | nil => exact absurd rfl hne
    | cons c A => exact ⟨c, A, rfl⟩
  have hc := hint c (List.mem_cons_self c A)
  have hsplitW := takeWhile_append_stop (c :: A) hint '.' fracDs (by decide)
  simp only [parseFloat_js, List.cons_append, dropWhile_ws_head_digit c _ hc,
    splitSign_head_digit c _ hc]
  rw [show ((c :: A) ++ '.' :: fracDs : List Char) = c :: (A ++ '.' :: fracDs) from rfl]
    at hsplitW
  rw [if_neg (take_ne_infinity_head c _ hc), hsplitW.1, hsplitW.2]
  simp [takeWhile_all fracDs hfrac, dropWhile_all fracDs hfrac]

theorem formatTime_ten_point_375 : formatTime (83/8 : ℚ) = "00:10.4".toList := by
  simp only [formatTime]
  have hfloor : ⌊(83 : ℚ) / 8 / 60⌋ = 0 := by norm_num
  have hrem : jsRem ((83 : ℚ) / 8) 60 = 83 / 8 := by
    rw [jsRem, jsTrunc_nonneg _ (by norm_num), show (83 : ℚ) / 8 / 60 = 83 / 480 by ring]
    norm_num
  rw [hrem]
  have hround : jsRound ((83 : ℚ) / 8 * 10) = 104 := by
    rw [jsRound]
    norm_num
  rw [hround]
  have hsr : ((104 : ℤ) : ℚ) / 10 = 52 / 5 := by norm_num
  rw [hsr]
  have hrem1 : jsRem ((52 : ℚ) / 5) 1 = 2 / 5 := by
    rw [jsRem, jsTrunc_nonneg _ (by norm_num)]
    norm_num
  rw [hrem1, if_neg (by norm_num)]
  simp only [toFixed1]
  have hz : jsRound ((52 : ℚ) / 5 * 10) = 104 := by
    rw [jsRound]
    norm_num
  rw [hz, if_neg (by norm_num), show (104 : ℤ).natAbs = 104 from rfl,
    show (104 : ℕ) / 10 = 10 from by norm_num, show (104 : ℕ) % 10 = 4 from by norm_num,
    show natRepr 10 = ['1', '0'] from by
      rw [natRepr_of_ge 10 (by omega), show (10 : ℕ) / 10 = 1 from by norm_num,
        show (10 : ℕ) % 10 = 0 from by norm_num, natRepr_of_lt 1 (by omega)]
      rfl,
    hfloor,
    show jsIntRepr 0 = ['0'] from by
      rw [jsIntRepr, if_neg (by norm_num), show (0 : ℤ).natAbs = 0 from rfl,
        natRepr_of_lt 0 (by omega)]
      rfl]
  rfl

theorem parseTime_ten_four :
    parseTime_js "00:10.4".toList = JsFloat.fin (52/5 : ℚ) := by
  have hsplit : jsSplit ':' "00:10.4".toList = ["00".toList, "10.4".toList] := by
    decide
  have hint : parseInt_js "00".toList = some 0 := by decide
  have hfloat : parseFloat_js "10.4".toList = some (JsFloat.fin (52/5 : ℚ)) := by
    have h := parseFloat_int_frac "10".toList "4".toList (by decide) (by decide)
      (by decide)
    calc parseFloat_js "10.4".toList
        = parseFloat_js ("10".toList ++ '.' :: "4".toList) := rfl
      _ = some (JsFloat.fin ((digitsVal "10".toList : ℚ) +
            (digitsVal "4".toList : ℚ) / (10 ^ ("4".toList).length : ℚ))) := h
      _ = some (JsFloat.fin (52/5 : ℚ)) := by
          rw [show digitsVal "10".toList = 10 from by decide,
            show digitsVal "4".toList = 4 from by decide,
            show ("4".toList).length = 1 from rfl]
          norm_num
  have heval := parseTime_eval _ _ _ hsplit 0 (52/5) hint hfloat
  rw [heval]
  norm_num

/-- C1: evaluation of the right-edge drag tick at a concrete failing
input.  With the dragged segment at `[10, 11]`, a pointer delta of
`-0.5` s and another segment edge at `10.375` s (default snap config),
the clamped candidate end `10.5` satisfies the minimum-duration bound,
but edge snapping then pulls it to `10.375` and the tick stores
`endTime = "00:10.4"`, leaving a duration of `0.4 < 0.5 = minDuration`:
the claimed invariant is violated by the code. -/
theorem claim_C1_right_edge_tick_violates_min_duration :
    (minDuration ≤ rightEdgeRawEnd 10 11 (-(1/2)) - 10) ∧
    rightEdgeNewEnd 10 11 (-(1/2)) [83/8] DEFAULT_SNAP_CONFIG = 83/8 ∧
    rightEdgeStoredEnd 10 11 (-(1/2)) [83/8] DEFAULT_SNAP_CONFIG = "00:10.4".toList ∧
    parseTime_js "00:10.4".toList = JsFloat.fin (52/5 : ℚ) ∧
    (52 : ℚ)/5 - 10 < minDuration := by
  have hnew : rightEdgeNewEnd 10 11 (-(1/2)) [83/8] DEFAULT_SNAP_CONFIG = 83/8 := by
    norm_num [rightEdgeNewEnd, rightEdgeRawEnd, minDuration, snapTime, snapToEdge,
      snapToEdgeLoop, jsAbs, DEFAULT_SNAP_CONFIG, List.cons_ne_nil]
  refine ⟨by norm_num [rightEdgeRawEnd, minDuration], hnew, ?_, parseTime_ten_four,
    by norm_num [minDuration]⟩
  rw [rightEdgeStoredEnd, hnew]
  exact formatTime_ten_point_375

/-! ### History manager lemmas -/

theorem applyOp_past (op : StoreOp) (st : ProjectState) :
    (applyOp op st).past = pushHistory st := by
  cases op <;> rfl

theorem applyOp_future (op : StoreOp) (st : ProjectState) :
    (applyOp op st).future = [] := by
  cases op <;> rfl

theorem undo_applyOp (op : StoreOp) (st : ProjectState) :
    undo (applyOp op st) =
      { applyOp op st with
        past := st.past
        future := [{ segments := (applyOp op st).segments
                     speakers := (applyOp op st).speakers }]
        segments := st.segments
        speakers := st.speakers } := by
  have hp : (applyOp op st).past.getLast? =
      some { segments := st.segments, speakers := st.speakers } := by
    rw [applyOp_past, pushHistory]
    exact List.getLast?_concat _
  have hd : (applyOp op st).past.dropLast = st.past := by
    rw [applyOp_past, pushHistory]
    exact List.dropLast_concat
  simp only [undo, hp, hd, applyOp_future]

/-- C2: every mutating action pushes the pre-action `(segments, speakers)`
pair onto `past` and clears `future`; `undo` then restores exactly the
pre-action pair, `redo` restores exactly the post-action pair, and any
mutating action performed after the `undo` clears `future` again, making
redo unavailable. -/
theorem claim_C2_undo_redo_roundtrip (st : ProjectState) (op op₂ : StoreOp)
    (h : opOk op st) (h₂ : opOk op₂ (undo (applyOp op st))) :
    (undo (applyOp op st)).segments = st.segments ∧
    (undo (applyOp op st)).speakers = st.speakers ∧
    (redo (undo (applyOp op st))).segments = (applyOp op st).segments ∧
    (redo (undo (applyOp op st))).speakers = (applyOp op st).speakers ∧
    (applyOp op₂ (undo (applyOp op st))).future = [] ∧
    canRedo (applyOp op₂ (undo (applyOp op st))) = false := by
  rw [undo_applyOp]
  refine ⟨rfl, rfl, rfl, rfl, applyOp_future _ _, ?_⟩
  rw [canRedo, applyOp_future]
  rfl

theorem claim_C2_witness :
    (undo (applyOp (StoreOp.deleteSegment "x".toList) emptyProjectState)).segments =
      emptyProjectState.segments ∧
    (undo (applyOp (StoreOp.deleteSegment "x".toList) emptyProjectState)).speakers =
      emptyProjectState.speakers ∧
    (redo (undo (applyOp (StoreOp.deleteSegment "x".toList) emptyProjectState))).segments =
      (applyOp (StoreOp.deleteSegment "x".toList) emptyProjectState).segments ∧
    (redo (undo (applyOp (StoreOp.deleteSegment "x".toList) emptyProjectState))).speakers =
      (applyOp (StoreOp.deleteSegment "x".toList) emptyProjectState).speakers ∧
    (applyOp (StoreOp.deleteSegment "y".toList)
      (undo (applyOp (StoreOp.deleteSegment "x".toList) emptyProjectState))).future = [] ∧
    canRedo (applyOp (StoreOp.deleteSegment "y".toList)
      (undo (applyOp (StoreOp.deleteSegment "x".toList) emptyProjectState))) = false :=
  claim_C2_undo_redo_roundtrip emptyProjectState (StoreOp.deleteSegment "x".toList)
    (StoreOp.deleteSegment "y".toList) trivial trivial

/-! ### Missing-id mutations (C8) and speaker merge (C6) -/

theorem map_eq_self_of {α : Type _} {f : α → α} :
    ∀ l : List α, (∀ x ∈ l, f x = x) → l.map f = l
  | [], _ => rfl
  | x :: xs, h => by
    rw [List.map_cons, h x (List.mem_cons_self x xs),
      map_eq_self_of xs fun y hy => h y (List.mem_cons_of_mem x hy)]

/-- C8 counterexample: on a store whose `future` stack is non-empty,
`updateSegment` with an id matching no segment still pushes a history
entry and clears `future`, so the store state is not left unchanged. -/
theorem claim_C8_counterexample_state_changes :
    updateSegment redoableState "zz".toList
        { id := none, speakerId := none, startTime := none, endTime := none,
          text := none } ≠ redoableState ∧
    (∀ s ∈ redoableState.segments, s.id ≠ "zz".toList) ∧
    canRedo redoableState = true ∧
    canRedo (updateSegment redoableState "zz".toList
        { id := none, speakerId := none, startTime := none, endTime := none,
          text := none }) = false := by
  refine ⟨by decide, by decide, by decide, by decide⟩

/-- C8 (amended): `updateSegment` and `deleteSegment` on an id matching
no stored segment never fail and leave `segments`, `speakers` and (for
`updateSegment`) the selection unchanged — but both still push a history
snapshot and clear the `future` stack, and `deleteSegment` clears a stale
matching selection. -/
theorem claim_C8_missing_id_mutations (st : ProjectState) (id : JsString)
    (p : SegmentPatch) (h : ∀ s ∈ st.segments, s.id ≠ id) :
    (updateSegment st id p).segments = st.segments ∧
    (updateSegment st id p).speakers = st.speakers ∧
    (updateSegment st id p).selectedSegmentId = st.selectedSegmentId ∧
    (updateSegment st id p).past = pushHistory st ∧
    (updateSegment st id p).future = [] ∧
    (deleteSegment st id).segments = st.segments ∧
    (deleteSegment st id).speakers = st.speakers ∧
    (deleteSegment st id).selectedSegmentId =
      (if st.selectedSegmentId = some id then none else st.selectedSegmentId) ∧
    (deleteSegment st id).past = pushHistory st ∧
    (deleteSegment st id).future = [] := by
  refine ⟨?_, rfl, rfl, rfl, rfl, ?_, rfl, rfl, rfl, rfl⟩
  · exact map_eq_self_of st.segments fun s hs => if_neg (h s hs)
  · exact List.filter_eq_self.mpr fun s hs => by simpa using h s hs

theorem claim_C8_witness :
    ((updateSegment emptyProjectState "zz".toList
        { id := none, speakerId := none, startTime := none, endTime := none,
          text := none }).segments = emptyProjectState.segments ∧
      (updateSegment emptyProjectState "zz".toList
        { id := none, speakerId := none, startTime := none, endTime := none,
          text := none }).speakers = emptyProjectState.speakers ∧
      (updateSegment emptyProjectState "zz".toList
        { id := none, speakerId := none, startTime := none, endTime := none,
          text := none }).selectedSegmentId = emptyProjectState.selectedSegmentId ∧
      (updateSegment emptyProjectState "zz".toList
        { id := none, speakerId := none, startTime := none, endTime := none,
          text := none }).past = pushHistory emptyProjectState ∧
      (updateSegment emptyProjectState "zz".toList
        { id := none, speakerId := none, startTime := none, endTime := none,
          text := none }).future = [] ∧
      (deleteSegment emptyProjectState "zz".toList).segments =
        emptyProjectState.segments ∧
      (deleteSegment emptyProjectState "zz".toList).speakers =
        emptyProjectState.speakers ∧
      (deleteSegment emptyProjectState "zz".toList).selectedSegmentId =
        (if emptyProjectState.selectedSegmentId = some "zz".toList then none
          else emptyProjectState.selectedSegmentId) ∧
      (deleteSegment emptyProjectState "zz".toList).past =
        pushHistory emptyProjectState ∧
      (deleteSegment emptyProjectState "zz".toList).future = []) :=
  claim_C8_missing_id_mutations emptyProjectState "zz".toList
    { id := none, speakerId := none, startTime := none, endTime := none,
      text := none } (by decide)

/-- C6 counterexample: merging a speaker into itself
(`mergeSpeakers(A, A)`) leaves the segment still referencing `A`, so the
claim as stated — "afterwards no segment has speakerId A", for every pair
of ids — is false. -/
theorem claim_C6_counterexample_self_merge :
    (mergeSpeakers mergeExampleState "a".toList "a".toList).segments.map
      Segment.speakerId = ["a".toList] ∧
    (mergeSpeakers mergeExampleState "a".toList "a".toList).speakers = [] := by
  refine ⟨by decide, by decide⟩

/-- C6 (amended, requiring `A ≠ B`): after `mergeSpeakers(A, B)` no
segment references `A`; segment `i` is the old segment `i`, with
`speakerId` rewritten to `B` exactly when it was `A` and every other
field untouched; the roster is the old roster with the speakers whose id
is `A` removed. -/
theorem claim_C6_merge_speakers (st : ProjectState) (A B : JsString)
    (h : A ≠ B) :
    (∀ s ∈ (mergeSpeakers st A B).segments, s.speakerId ≠ A) ∧
    (∀ i : ℕ, (mergeSpeakers st A B).segments.get? i =
      (st.segments.get? i).map fun s =>
        if s.speakerId = A then { s with speakerId := B } else s) ∧
    (mergeSpeakers st A B).speakers = st.speakers.filter fun sp => sp.id ≠ A := by
  refine ⟨?_, ?_, rfl⟩
  · intro s hs
    obtain ⟨a, _, rfl⟩ := List.mem_map.mp hs
    by_cases hA : a.speakerId = A
    · rw [if_pos hA]
      exact fun he => h (he ▸ rfl)
    · rw [if_neg hA]
      exact hA
  · intro i
    exact List.get?_map _ _ _

theorem claim_C6_witness :
    ((∀ s ∈ (mergeSpeakers mergeExampleState "a".toList "b".toList).segments,
        s.speakerId ≠ "a".toList) ∧
      (∀ i : ℕ, (mergeSpeakers mergeExampleState "a".toList "b".toList).segments.get? i =
        (mergeExampleState.segments.get? i).map fun s =>
          if s.speakerId = "a".toList then { s with speakerId := "b".toList } else s) ∧
      (mergeSpeakers mergeExampleState "a".toList "b".toList).speakers =
        mergeExampleState.speakers.filter fun sp => sp.id ≠ "a".toList) :=
  claim_C6_merge_speakers mergeExampleState "a".toList "b".toList (by decide)

/-! ### addSegment sorting lemmas (C5) -/

theorem segLe_trans (a b c : Segment) :
    decide (segKeyD a ≤ segKeyD b) = true →
    decide (segKeyD b ≤ segKeyD c) = true →
    decide (segKeyD a ≤ segKeyD c) = true := by
  simp only [decide_eq_true_eq]
  exact le_trans

theorem segLe_total (a b : Segment) :
    (decide (segKeyD a ≤ segKeyD b) || decide (segKeyD b ≤ segKeyD a)) = true := by
  simp [le_total]

theorem sortSegments_perm (l : List Segment) : (sortSegments l).Perm l :=
  List.mergeSort_perm l _

theorem sortSegments_sorted (l : List Segment) :
    List.Sorted (fun a b => segKeyD a ≤ segKeyD b) (sortSegments l) := by
  have h := List.sorted_mergeSort segLe_trans segLe_total l
  exact h.imp fun hab => of_decide_eq_true hab

theorem sortSegments_filter_key (l : List Segment) (k : ℚ) :
    (sortSegments l).filter (fun s => decide (segKeyD s = k)) =
      l.filter (fun s => decide (segKeyD s = k)) := by
  have hpair : (l.filter (fun s => decide (segKeyD s = k))).Pairwise
      (fun a b => (fun a b => decide (segKeyD a ≤ segKeyD b)) a b = true) := by
    apply List.pairwise_of_forall_mem_list
    intro x hx y hy
    have hxk : segKeyD x = k := of_decide_eq_true (List.mem_filter.mp hx).2
    have hyk : segKeyD y = k := of_decide_eq_true (List.mem_filter.mp hy).2
    simp [hxk, hyk]
  have hsub : (l.filter (fun s => decide (segKeyD s = k))).Sublist (sortSegments l) :=
    List.mergeSort_stable segLe_trans segLe_total hpair (List.filter_sublist l)
  have hself : (l.filter (fun s => decide (segKeyD s = k))).filter
      (fun s => decide (segKeyD s = k)) = l.filter (fun s => decide (segKeyD s = k)) :=
    List.filter_eq_self.mpr fun a ha => (List.mem_filter.mp ha).2
  have hsub2 : (l.filter (fun s => decide (segKeyD s = k))).Sublist
      ((sortSegments l).filter (fun s => decide (segKeyD s = k))) := by
    rw [← hself]
    exact hsub.filter _
  have hlen : (l.filter (fun s => decide (segKeyD s = k))).length =
      ((sortSegments l).filter (fun s => decide (segKeyD s = k))).length :=
    (((sortSegments_perm l).filter _).length_eq).symm
  exact (hsub2.eq_of_length hlen).symm

/-- C5 counterexample: `addSegment` called with the empty string as the
given speaker id assigns the roster head's id instead, because the
defaulting chain `speakerId || speakers[0]?.id || "speaker_1"` treats the
empty string as falsy; the claim says the segment gets the given id. -/
theorem claim_C5_counterexample_empty_speaker_arg :
    (addSegment addExampleState 0 (some ([] : JsString)) "n1".toList).segments.map
      Segment.speakerId = ["alice".toList] ∧
    "alice".toList ≠ ([] : JsString) := by
  refine ⟨?_, by decide⟩
  have h := List.mergeSort_singleton (r := fun a b => decide (segKeyD a ≤ segKeyD b))
    ({ id := "n1".toList
       speakerId := "alice".toList
       startTime := formatTime 0
       endTime := formatTime (0 + 3)
       text := [] } : Segment)
  calc (addSegment addExampleState 0 (some ([] : JsString)) "n1".toList).segments.map
        Segment.speakerId
      = (sortSegments [{ id := "n1".toList
                         speakerId := "alice".toList
                         startTime := formatTime 0
                         endTime := formatTime (0 + 3)
                         text := [] }]).map Segment.speakerId := rfl
    _ = ["alice".toList] := by
        rw [sortSegments, h]
        rfl

/-- C5 (amended on the speaker rule): `addSegment` appends one segment —
empty text, `startTime = formatTime(t)`, `endTime = formatTime(t + 3)`,
speaker id equal to the given id when that is non-empty, else the first
roster speaker's id when that is non-empty, else `"speaker_1"` — then
stably re-sorts the whole sequence ascending by parsed start time and
selects the new segment.  The hypothesis restricts to states whose
stored start times have well-defined numeric sort keys, the domain on
which the JavaScript comparator is consistent. -/
theorem claim_C5_add_segment (st : ProjectState) (t : ℚ)
    (spk : Option JsString) (newId : JsString)
    (hkeys : ∀ s ∈ st.segments, (segStartKey s.startTime).isSome) :
    ∃ newSeg : Segment,
      newSeg.id = newId ∧
      newSeg.speakerId =
        (if spk.getD [] ≠ [] then spk.getD []
         else if (st.speakers.head?.map Speaker.id).getD [] ≠ [] then
           (st.speakers.head?.map Speaker.id).getD []
         else "speaker_1".toList) ∧
      newSeg.startTime = formatTime t ∧
      newSeg.endTime = formatTime (t + 3) ∧
      newSeg.text = [] ∧
      (addSegment st t spk newId).segments.Perm (st.segments ++ [newSeg]) ∧
      List.Sorted (fun a b => segKeyD a ≤ segKeyD b)
        (addSegment st t spk newId).segments ∧
      (∀ k : ℚ, (addSegment st t spk newId).segments.filter
          (fun s => decide (segKeyD s = k)) =
        (st.segments ++ [newSeg]).filter (fun s => decide (segKeyD s = k))) ∧
      (addSegment st t spk newId).selectedSegmentId = some newId := by
  refine ⟨{ id := newId
            speakerId :=
              if spk.getD [] ≠ [] then spk.getD []
              else if (st.speakers.head?.map Speaker.id).getD [] ≠ [] then
                (st.speakers.head?.map Speaker.id).getD []
              else "speaker_1".toList
            startTime := formatTime t
            endTime := formatTime (t + 3)
            text := [] },
    rfl, rfl, rfl, rfl, rfl, sortSegments_perm _, sortSegments_sorted _,
    fun k => sortSegments_filter_key _ k, rfl⟩

theorem claim_C5_witness :
    ∃ newSeg : Segment,
      newSeg.id = "n".toList ∧
      newSeg.speakerId =
        (if (some "x".toList).getD [] ≠ [] then (some "x".toList).getD []
         else if (emptyProjectState.speakers.head?.map Speaker.id).getD [] ≠ [] then
           (emptyProjectState.speakers.head?.map Speaker.id).getD []
         else "speaker_1".toList) ∧
      newSeg.startTime = formatTime 0 ∧
      newSeg.endTime = formatTime (0 + 3) ∧
      newSeg.text = [] ∧
      (addSegment emptyProjectState 0 (some "x".toList) "n".toList).segments.Perm
        (emptyProjectState.segments ++ [newSeg]) ∧
      List.Sorted (fun a b => segKeyD a ≤ segKeyD b)
        (addSegment emptyProjectState 0 (some "x".toList) "n".toList).segments ∧
      (∀ k : ℚ,
        (addSegment emptyProjectState 0 (some "x".toList) "n".toList).segments.filter
          (fun s => decide (segKeyD s = k)) =
        (emptyProjectState.segments ++ [newSeg]).filter
          (fun s => decide (segKeyD s = k))) ∧
      (addSegment emptyProjectState 0 (some "x".toList) "n".toList).selectedSegmentId =
        some "n".toList :=
  claim_C5_add_segment emptyProjectState 0 (some "x".toList) "n".toList
    (by simp [emptyProjectState])
